import Mathlib

/-!
A verification development for the `redoc-with-mermaid` component
(`src/components/RedocWithMermaid.tsx`).  The component watches a DOM
container for `code.language-mermaid` blocks, renders each with the
mermaid library, and splices the rendered output (or an error panel)
into the tree.  We give a shallow embedding of the DOM fragment the
component manipulates, of the scan-and-render pass
(`processMermaidBlocks`), of the module-level mermaid configuration
state (`initializeMermaid` and the `mermaidInitialized` flag), and of
the event-loop interleaving of several overlapping passes, and prove
properties of these definitions.
-/

namespace RedocMermaid

/-! ## Strings: a computable model of JavaScript `String.prototype.trim` -/

/-- Strip leading and trailing whitespace from a character list. -/
def trimChars (l : List Char) : List Char :=
  ((l.dropWhile Char.isWhitespace).reverse.dropWhile Char.isWhitespace).reverse

/-- Model of `textContent.trim()`: `String.trim` itself is not kernel-reducible,
so we use an equivalent structural definition on the underlying characters. -/
def jsTrim (s : String) : String := ⟨trimChars s.data⟩

/-! ## The DOM fragment

A *source block* models one `<code class="language-mermaid">` element
together with its parent `<pre>`:

* `sid` — a stable node identity (DOM element references are stable
  across mutations of the rest of the tree);
* `text` — the raw `textContent` of the code element;
* `processed` — presence of the `data-mermaid-processed` attribute;
* `parentIsPre` — whether `codeBlock.parentElement` is a `PRE` element
  (the structural precondition checked by the scan);
* `hidden` — whether the `<pre>` carries the `mermaid-hidden` class.

The container is a list of sibling nodes: source blocks (each standing
for its `<pre><code>…</code></pre>` subtree), rendered diagram
containers (`div.mermaid-container`) and error panels
(`div.mermaid-error`).  `insertAdjacentElement('afterend', x)` on the
`<pre>` of block `i` becomes insertion of `x` directly after that
block. -/

structure SourceBlock where
  sid : Nat
  text : String
  processed : Bool
  parentIsPre : Bool
  hidden : Bool
deriving Repr, DecidableEq

inductive Node where
  | src (b : SourceBlock)
  | diagramOut (svg : String)
  | errOut (msg : String)
deriving Repr, DecidableEq

abbrev Dom := List Node

/-- Does this node stand for the source block with identity `i`? -/
def Node.isSrcId (n : Node) (i : Nat) : Bool :=
  match n with
  | .src b => b.sid = i
  | _ => false

/-- Look up the source block with identity `i` (a DOM element reference). -/
def findSrc (dom : Dom) (i : Nat) : Option SourceBlock :=
  dom.findSome? fun n =>
    match n with
    | .src b => if b.sid = i then some b else none
    | _ => none

/-- Update the source block with identity `i` in place (attribute /
class mutations on an element reference). -/
def updateSrc (dom : Dom) (i : Nat) (f : SourceBlock → SourceBlock) : Dom :=
  dom.map fun n =>
    match n with
    | .src b => if b.sid = i then .src (f b) else .src b
    | n => n

/-- `preElement.insertAdjacentElement('afterend', x)`: insert `x`
directly after the block with identity `i` (no-op when the block is
absent, as for a detached element). -/
def insertAfter : Dom → Nat → Node → Dom
  | [], _, _ => []
  | n :: rest, i, x =>
    if n.isSrcId i then n :: x :: rest
    else n :: insertAfter rest i x

/-- `containerRef.current.querySelectorAll('code.language-mermaid')`:
the identities of all source blocks, in document order.  The processed
attribute does not affect selection; it is re-checked inside the loop. -/
def snapshot (dom : Dom) : List Nat :=
  dom.filterMap fun n =>
    match n with
    | .src b => some b.sid
    | _ => none

/-! ## The renderer and the scan state -/

/-- The outcome of `mermaid.render(id, source)`: either the rendered
`svg` markup, or a failure carrying `some message` (an `Error` with a
`.message`) or `none` (a non-`Error` throw). -/
abbrev RenderFn := Nat → String → Except (Option String) String

/-- Observable renderer events of a pass: `renderStart id text` is the
moment `mermaid.render` is invoked, `renderEnd id text` the moment its
promise settles (fulfilled or rejected). -/
inductive Event where
  | renderStart (id : Nat) (text : String)
  | renderEnd (id : Nat) (text : String)
deriving Repr, DecidableEq

/-- `mermaidIdCounter`: `generateMermaidId` pre-increments the
module-level counter and returns the identifier formed from it (the
DOM id string is `"mermaid-diagram-" ++ toString counter`; the model
keeps the numeric part, which determines the string). -/
def generateMermaidId (mermaidIdCounter : Nat) : Nat := mermaidIdCounter + 1

/-- JavaScript `Set.add`: no-op when the element is present. -/
def setAdd (s : List String) (t : String) : List String :=
  if t ∈ s then s else t :: s

/-- Mutable state threaded through one scan-and-render pass: the
container contents, `renderingRef.current`, `mermaidIdCounter`, and the
renderer-event trace accumulated so far. -/
structure ScanState where
  dom : Dom
  rendering : List String
  counter : Nat
  events : List Event
deriving Repr, DecidableEq

/-- The fixed error-text prefix and fallback of the catch block:
`` `Mermaid Error: ${error instanceof Error ? error.message : 'Failed to render diagram'}` ``. -/
def errorText (e : Option String) : String :=
  "Mermaid Error: " ++ e.getD "Failed to render diagram"

/-- One iteration of the `for … of` loop of `processMermaidBlocks`,
examining the block with identity `i`.  Because the loop `await`s the
render before its next iteration, each iteration runs to completion
(initiation, settlement, DOM patch, `finally`) before the next begins;
the `renderStart`/`renderEnd` pair records initiation and settlement.

Faithful step order: processed-attribute check; `PRE`-parent check;
trim and empty check; `generateMermaidId` (counter increments even for
blocks the next check skips); `renderingRef` membership check (skip
without marking processed); add to `renderingRef`; set
`data-mermaid-processed`; render; on success insert the
`mermaid-container` after the `<pre>` and add `mermaid-hidden` to it;
on failure insert the `mermaid-error` panel after the `<pre>` and
remove `data-mermaid-processed`; finally delete from `renderingRef`. -/
def processBlock (render : RenderFn) (st : ScanState) (i : Nat) : ScanState :=
  match findSrc st.dom i with
  | none => st
  | some b =>
    if b.processed then st
    else if !b.parentIsPre then st
    else
      let mermaidSource := jsTrim b.text
      if mermaidSource = "" then st
      else
        let diagramId := generateMermaidId st.counter
        if mermaidSource ∈ st.rendering then { st with counter := diagramId }
        else
          let rendering := setAdd st.rendering mermaidSource
          let dom := updateSrc st.dom i fun b => { b with processed := true }
          match render diagramId mermaidSource with
          | .ok svg =>
            let dom := insertAfter dom i (.diagramOut svg)
            let dom := updateSrc dom i fun b => { b with hidden := true }
            { dom := dom
              rendering := rendering.erase mermaidSource
              counter := diagramId
              events := st.events ++
                [.renderStart diagramId mermaidSource,
                 .renderEnd diagramId mermaidSource] }
          | .error e =>
            let dom := insertAfter dom i (.errOut (errorText e))
            let dom := updateSrc dom i fun b => { b with processed := false }
            { dom := dom
              rendering := rendering.erase mermaidSource
              counter := diagramId
              events := st.events ++
                [.renderStart diagramId mermaidSource,
                 .renderEnd diagramId mermaidSource] }

/-- The whole `for … of` loop over the snapshot of candidates. -/
def runPass (render : RenderFn) (st : ScanState) : List Nat → ScanState
  | [] => st
  | i :: rest => runPass render (processBlock render st i) rest

/-- Component-level state: `containerRef.current` (`none` once the
container is gone), `renderingRef.current`, and `mermaidIdCounter`. -/
structure CompState where
  container : Option Dom
  rendering : List String
  counter : Nat
deriving Repr, DecidableEq

/-- `processMermaidBlocks`: bail out when the container is absent,
otherwise take the snapshot and run the loop.  Returns the new state
and the renderer-event trace of this invocation. -/
def processMermaidBlocks (render : RenderFn) (cs : CompState) :
    CompState × List Event :=
  match cs.container with
  | none => (cs, [])
  | some dom =>
    let st := runPass render ⟨dom, cs.rendering, cs.counter, []⟩ (snapshot dom)
    (⟨some st.dom, st.rendering, st.counter⟩, st.events)

/-- `n` successive invocations of `processMermaidBlocks` (e.g. one per
observed mutation batch). -/
def iterScan (render : RenderFn) : Nat → CompState → CompState
  | 0, cs => cs
  | n + 1, cs => iterScan render n (processMermaidBlocks render cs).1

/-! ## Mermaid configuration (`initializeMermaid` and the `useEffect`)

`MermaidConfig` models the four keys the component's defaults set.  A
caller-supplied configuration may omit any key (`Option`); the spread
`{ ...defaultMermaidConfig, ...config }` lets a supplied key win over
the default, key by key. -/

structure FullMermaidConfig where
  startOnLoad : Bool
  theme : String
  securityLevel : String
  fontFamily : String
deriving Repr, DecidableEq

structure PartialMermaidConfig where
  startOnLoad : Option Bool := none
  theme : Option String := none
  securityLevel : Option String := none
  fontFamily : Option String := none
deriving Repr, DecidableEq

/-- `defaultMermaidConfig` from the source. -/
def defaultMermaidConfig : FullMermaidConfig :=
  { startOnLoad := false
    theme := "default"
    securityLevel := "loose"
    fontFamily := "inherit" }

/-- Object spread `{ ...d, ...c }`: every key present in `c` overrides
`d`. -/
def mergeOver (d : FullMermaidConfig) (c : PartialMermaidConfig) :
    FullMermaidConfig :=
  { startOnLoad := c.startOnLoad.getD d.startOnLoad
    theme := c.theme.getD d.theme
    securityLevel := c.securityLevel.getD d.securityLevel
    fontFamily := c.fontFamily.getD d.fontFamily }

/-- The module-level mermaid state: the `mermaidInitialized` flag and
the configuration currently installed in the mermaid library (`none`
before any `mermaid.initialize` call).  One value per process, shared
by every component instance. -/
structure MermaidGlobal where
  mermaidInitialized : Bool
  installed : Option FullMermaidConfig
deriving Repr, DecidableEq

/-- The state before any activation. -/
def mermaidGlobalInit : MermaidGlobal := ⟨false, none⟩

/-- `initializeMermaid(config?)`: `mermaid.initialize({
...defaultMermaidConfig, ...config })` then `mermaidInitialized =
true`.  An absent argument spreads nothing, leaving the defaults. -/
def initializeMermaid (config : Option PartialMermaidConfig)
    (g : MermaidGlobal) : MermaidGlobal :=
  { g with
    mermaidInitialized := true
    installed := some (mergeOver defaultMermaidConfig
      (config.getD {})) }

/-- The body of the component's configuration `useEffect`: on first
activation call `initializeMermaid(mermaidConfig)`; on a later
activation re-initialize only when an explicit `mermaidConfig` was
supplied, again merging it over the defaults. -/
def activationEffect (mermaidConfig : Option PartialMermaidConfig)
    (g : MermaidGlobal) : MermaidGlobal :=
  if !g.mermaidInitialized then initializeMermaid mermaidConfig g
  else
    match mermaidConfig with
    | some c => { g with installed := some (mergeOver defaultMermaidConfig c) }
    | none => g

/-! ## Interleaved passes

`processMermaidBlocks` is an `async` function: a call runs
synchronously until the first `await mermaid.render(…)`, suspends, and
on settlement its continuation again runs synchronously up to the next
`await` (the event loop interleaves nothing into these synchronous
stretches).  Several calls may overlap — the initial timer and each
debounced mutation callback schedule independent invocations.  We model
the system as one shared state plus a list of pass coroutines and a
step relation choosing which coroutine advances or which in-flight
render settles. -/

/-- Where one pass invocation stands: still awaiting a render of
`text` for block `blockId` (with `pending` candidates left), or
finished. A freshly spawned pass immediately runs its synchronous
prefix, so a `scanning` phase never rests between steps. -/
inductive PassPhase where
  | awaiting (blockId : Nat) (renderId : Nat) (text : String)
      (pending : List Nat)
  | done
deriving Repr, DecidableEq

structure SyncResult where
  dom : Dom
  rendering : List String
  counter : Nat
  phase : PassPhase
deriving Repr, DecidableEq

/-- The synchronous prefix of a pass: examine candidates in order,
performing the skip checks, until either a render is initiated (the
pass suspends in `awaiting`, having added the text to `renderingRef`
and set the processed attribute) or the candidates run out. -/
def syncRun (dom : Dom) (rendering : List String) (counter : Nat) :
    List Nat → SyncResult
  | [] => ⟨dom, rendering, counter, .done⟩
  | i :: rest =>
    match findSrc dom i with
    | none => syncRun dom rendering counter rest
    | some b =>
      if b.processed then syncRun dom rendering counter rest
      else if !b.parentIsPre then syncRun dom rendering counter rest
      else
        let mermaidSource := jsTrim b.text
        if mermaidSource = "" then syncRun dom rendering counter rest
        else
          let diagramId := generateMermaidId counter
          if mermaidSource ∈ rendering then syncRun dom rendering diagramId rest
          else
            ⟨updateSrc dom i fun b => { b with processed := true },
             setAdd rendering mermaidSource, diagramId,
             .awaiting i diagramId mermaidSource rest⟩

/-- Settlement of an awaited render: the `try`/`catch` patch for block
`i` followed by the unconditional `finally` delete of `text` from
`renderingRef`. -/
def settleCore (dom : Dom) (rendering : List String) (i : Nat)
    (text : String) (outcome : Except (Option String) String) :
    Dom × List String :=
  match outcome with
  | .ok svg =>
    let dom := insertAfter dom i (.diagramOut svg)
    let dom := updateSrc dom i fun b => { b with hidden := true }
    (dom, rendering.erase text)
  | .error e =>
    let dom := insertAfter dom i (.errOut (errorText e))
    let dom := updateSrc dom i fun b => { b with processed := false }
    (dom, rendering.erase text)

/-- The shared mutable state: the container, `renderingRef.current`,
`mermaidIdCounter`, and the phases of every pass invoked so far. -/
structure GlobalState where
  dom : Dom
  rendering : List String
  counter : Nat
  passes : List PassPhase
deriving Repr, DecidableEq

/-- One event-loop step: either a new `processMermaidBlocks` invocation
runs (snapshot plus synchronous prefix, atomically), or an in-flight
render of some pass settles with an arbitrary outcome and that pass's
continuation runs its next synchronous stretch. -/
inductive SysStep : GlobalState → GlobalState → Prop
  | spawn (s : GlobalState) :
      SysStep s
        ⟨(syncRun s.dom s.rendering s.counter (snapshot s.dom)).dom,
         (syncRun s.dom s.rendering s.counter (snapshot s.dom)).rendering,
         (syncRun s.dom s.rendering s.counter (snapshot s.dom)).counter,
         s.passes ++ [(syncRun s.dom s.rendering s.counter (snapshot s.dom)).phase]⟩
  | settle (s : GlobalState) (k i rid : Nat) (t : String)
      (pending : List Nat) (outcome : Except (Option String) String)
      (h : s.passes[k]? = some (PassPhase.awaiting i rid t pending)) :
      SysStep s
        ⟨(syncRun (settleCore s.dom s.rendering i t outcome).1
            (settleCore s.dom s.rendering i t outcome).2 s.counter pending).dom,
         (syncRun (settleCore s.dom s.rendering i t outcome).1
            (settleCore s.dom s.rendering i t outcome).2 s.counter pending).rendering,
         (syncRun (settleCore s.dom s.rendering i t outcome).1
            (settleCore s.dom s.rendering i t outcome).2 s.counter pending).counter,
         s.passes.set k
           (syncRun (settleCore s.dom s.rendering i t outcome).1
              (settleCore s.dom s.rendering i t outcome).2 s.counter pending).phase⟩

/-- States reachable from a freshly mounted component over container
`dom0` (empty rendering set, counter as inherited from the process). -/
def Reachable (dom0 : Dom) (c0 : Nat) (s : GlobalState) : Prop :=
  Relation.ReflTransGen SysStep ⟨dom0, [], c0, []⟩ s

/-- The texts currently being rendered: one entry per pass suspended in
an `await`. -/
def inFlight (s : GlobalState) : List String :=
  s.passes.filterMap fun p =>
    match p with
    | .awaiting _ _ t _ => some t
    | .done => none

/-- Pass `k` is suspended awaiting a render of `t`. -/
def AwaitingAt (s : GlobalState) (k : Nat) (t : String) : Prop :=
  ∃ i rid pending, s.passes[k]? = some (PassPhase.awaiting i rid t pending)

/-- The rendering-set invariant: every in-flight text is in
`renderingRef`, and no two distinct passes are awaiting the same text
(so at most one render per distinct raw-text value is in flight). -/
def RenderingInv (s : GlobalState) : Prop :=
  (∀ k t, AwaitingAt s k t → t ∈ s.rendering)
  ∧ (∀ k j t, k ≠ j → AwaitingAt s k t → ¬ AwaitingAt s j t)

/-! ## Trace predicates and demonstration inputs -/

/-- A block that survives the processed-attribute, `PRE`-parent and
non-empty-text checks (the rendering-set check comes after the id is
generated and is deliberately not part of this predicate). -/
def isTextCandidate (dom : Dom) (i : Nat) : Bool :=
  match findSrc dom i with
  | some b => !b.processed && b.parentIsPre && !(jsTrim b.text == "")
  | none => false

def Event.isStart : Event → Bool
  | .renderStart _ _ => true
  | .renderEnd _ _ => false

def Event.eid : Event → Nat
  | .renderStart id _ => id
  | .renderEnd id _ => id

/-- Every render initiation is immediately followed by its own
settlement: at no instant are two renders of this trace in flight. -/
def SequentialTrace (tr : List Event) : Prop :=
  ∀ (n id : Nat) (t : String), tr[n]? = some (Event.renderStart id t) →
    tr[n + 1]? = some (Event.renderEnd id t)

/-- Render initiations occur in strictly increasing identifier order
(identifiers are handed out in document order of examination). -/
def StartsOrdered (tr : List Event) : Prop :=
  ∀ (n m id₁ : Nat) (t₁ : String) (id₂ : Nat) (t₂ : String), n < m →
    tr[n]? = some (Event.renderStart id₁ t₁) →
    tr[m]? = some (Event.renderStart id₂ t₂) → id₁ < id₂

/-- The concurrency reading of the spec: whenever two renders with
different texts are initiated in this order, the later one is initiated
before the earlier one settles. -/
def LaterStartsBeforeEarlierSettles (tr : List Event) : Prop :=
  ∀ (n m id₁ : Nat) (t₁ : String) (id₂ : Nat) (t₂ : String), n < m →
    tr[n]? = some (Event.renderStart id₁ t₁) →
    tr[m]? = some (Event.renderStart id₂ t₂) →
    t₁ ≠ t₂ →
    ∃ k, m < k ∧ tr[k]? = some (Event.renderEnd id₁ t₁)

/-- A fresh, well-formed source block. -/
def blk (i : Nat) (t : String) : Node := .src ⟨i, t, false, true, false⟩

/-- A renderer that always succeeds. -/
def okRender : RenderFn := fun _ t => .ok ("svg:" ++ t)

/-- A renderer that always rejects with message `"bad syntax"`. -/
def failRender : RenderFn := fun _ _ => .error (some "bad syntax")

/-- Two source blocks with identical raw text. -/
def dupDom : Dom := [blk 1 "a", blk 2 "a"]

/-- Two source blocks with different raw text. -/
def seqDom : Dom := [blk 1 "a", blk 2 "b"]

/-- All identifiers appearing in the trace are at most `c`. -/
def EventsBounded (tr : List Event) (c : Nat) : Prop :=
  ∀ ev ∈ tr, ev.eid ≤ c

/-- How many renders of text `t` a trace initiates. -/
def startsOf (t : String) (tr : List Event) : Nat :=
  tr.countP fun ev =>
    match ev with
    | .renderStart _ u => u == t
    | .renderEnd _ _ => false

/-- The trimmed source text of block `i` (empty when absent). -/
def srcText (dom : Dom) (i : Nat) : String :=
  match findSrc dom i with
  | some b => jsTrim b.text
  | none => ""

/-! ## Basic DOM lemmas -/

theorem findSrc_cons_src (b : SourceBlock) (rest : Dom) (j : Nat) :
    findSrc (.src b :: rest) j = if b.sid = j then some b else findSrc rest j := by
  simp only [findSrc, List.findSome?_cons]
  by_cases hbj : b.sid = j
  · simp [hbj]
  · simp [hbj]

theorem findSrc_cons_diagram (s : String) (rest : Dom) (j : Nat) :
    findSrc (.diagramOut s :: rest) j = findSrc rest j := rfl

theorem findSrc_cons_err (m : String) (rest : Dom) (j : Nat) :
    findSrc (.errOut m :: rest) j = findSrc rest j := rfl

theorem updateSrc_cons_src (b : SourceBlock) (rest : Dom) (i : Nat)
    (f : SourceBlock → SourceBlock) :
    updateSrc (.src b :: rest) i f
      = (if b.sid = i then Node.src (f b) else .src b) :: updateSrc rest i f := rfl

theorem updateSrc_cons_diagram (s : String) (rest : Dom) (i : Nat)
    (f : SourceBlock → SourceBlock) :
    updateSrc (.diagramOut s :: rest) i f = .diagramOut s :: updateSrc rest i f := rfl

theorem updateSrc_cons_err (m : String) (rest : Dom) (i : Nat)
    (f : SourceBlock → SourceBlock) :
    updateSrc (.errOut m :: rest) i f = .errOut m :: updateSrc rest i f := rfl

theorem snapshot_cons_src (b : SourceBlock) (rest : Dom) :
    snapshot (.src b :: rest) = b.sid :: snapshot rest := rfl

theorem snapshot_cons_diagram (s : String) (rest : Dom) :
    snapshot (.diagramOut s :: rest) = snapshot rest := rfl

theorem snapshot_cons_err (m : String) (rest : Dom) :
    snapshot (.errOut m :: rest) = snapshot rest := rfl

theorem findSrc_updateSrc_ne (dom : Dom) (i j : Nat) (f : SourceBlock → SourceBlock)
    (hf : ∀ b, (f b).sid = b.sid) (h : j ≠ i) :
    findSrc (updateSrc dom i f) j = findSrc dom j := by
  induction dom with
  | nil => rfl
  | cons n rest ih =>
    rcases n with b | svg | msg
    · simp only [updateSrc, List.map_cons, findSrc, List.findSome?_cons]
      by_cases hb : b.sid = i
      · have h1 : (f b).sid ≠ j := by rw [hf b, hb]; omega
        have h2 : b.sid ≠ j := by rw [hb]; omega
        simp only [if_pos hb, if_neg h1, if_neg h2]
        exact ih
      · by_cases hbj : b.sid = j
        · simp only [if_neg hb, if_pos hbj]
        · simp only [if_neg hb, if_neg hbj]
          exact ih
    · simpa only [updateSrc, List.map_cons, findSrc, List.findSome?_cons] using ih
    · simpa only [updateSrc, List.map_cons, findSrc, List.findSome?_cons] using ih

theorem findSrc_updateSrc_self (dom : Dom) (i : Nat) (f : SourceBlock → SourceBlock)
    (hf : ∀ b, (f b).sid = b.sid) :
    findSrc (updateSrc dom i f) i = (findSrc dom i).map f := by
  induction dom with
  | nil => rfl
  | cons n rest ih =>
    rcases n with b | s | m
    · rw [updateSrc_cons_src]
      by_cases hb : b.sid = i
      · rw [if_pos hb, findSrc_cons_src, if_pos ((hf b).trans hb),
          findSrc_cons_src, if_pos hb]
        rfl
      · rw [if_neg hb, findSrc_cons_src, if_neg hb, findSrc_cons_src, if_neg hb, ih]
    · rw [updateSrc_cons_diagram, findSrc_cons_diagram, findSrc_cons_diagram, ih]
    · rw [updateSrc_cons_err, findSrc_cons_err, findSrc_cons_err, ih]

theorem findSrc_insertAfter_not_src (dom : Dom) (i j : Nat) (x : Node)
    (hx : ∀ b, x ≠ Node.src b) :
    findSrc (insertAfter dom i x) j = findSrc dom j := by
  have hfx : ∀ rest : Dom, findSrc (x :: rest) j = findSrc rest j := by
    intro rest
    rcases x with b | s | m
    · exact absurd rfl (hx b)
    · rfl
    · rfl
  induction dom with
  | nil => rfl
  | cons n rest ih =>
    rw [insertAfter]
    by_cases hn : n.isSrcId i
    · rw [if_pos hn]
      rcases n with b | s | m
      · rw [findSrc_cons_src, hfx, findSrc_cons_src]
      · rw [findSrc_cons_diagram, hfx, findSrc_cons_diagram]
      · rw [findSrc_cons_err, hfx, findSrc_cons_err]
    · rw [if_neg hn]
      rcases n with b | s | m
      · rw [findSrc_cons_src, ih, findSrc_cons_src]
      · rw [findSrc_cons_diagram, ih, findSrc_cons_diagram]
      · rw [findSrc_cons_err, ih, findSrc_cons_err]

theorem snapshot_updateSrc (dom : Dom) (i : Nat) (f : SourceBlock → SourceBlock)
    (hf : ∀ b, (f b).sid = b.sid) :
    snapshot (updateSrc dom i f) = snapshot dom := by
  induction dom with
  | nil => rfl
  | cons n rest ih =>
    rcases n with b | s | m
    · rw [updateSrc_cons_src]
      by_cases hb : b.sid = i
      · rw [if_pos hb, snapshot_cons_src, snapshot_cons_src, ih, hf b]
      · rw [if_neg hb, snapshot_cons_src, snapshot_cons_src, ih]
    · rw [updateSrc_cons_diagram, snapshot_cons_diagram, snapshot_cons_diagram, ih]
    · rw [updateSrc_cons_err, snapshot_cons_err, snapshot_cons_err, ih]

theorem snapshot_insertAfter_not_src (dom : Dom) (i : Nat) (x : Node)
    (hx : ∀ b, x ≠ Node.src b) :
    snapshot (insertAfter dom i x) = snapshot dom := by
  have hsx : ∀ rest : Dom, snapshot (x :: rest) = snapshot rest := by
    intro rest
    rcases x with b | s | m
    · exact absurd rfl (hx b)
    · rfl
    · rfl
  induction dom with
  | nil => rfl
  | cons n rest ih =>
    rw [insertAfter]
    by_cases hn : n.isSrcId i
    · rw [if_pos hn]
      rcases n with b | s | m
      · rw [snapshot_cons_src, hsx, snapshot_cons_src]
      · rw [snapshot_cons_diagram, hsx, snapshot_cons_diagram]
      · rw [snapshot_cons_err, hsx, snapshot_cons_err]
    · rw [if_neg hn]
      rcases n with b | s | m
      · rw [snapshot_cons_src, ih, snapshot_cons_src]
      · rw [snapshot_cons_diagram, ih, snapshot_cons_diagram]
      · rw [snapshot_cons_err, ih, snapshot_cons_err]

/-! ## Classifying one loop iteration -/

theorem srcText_eq (dom : Dom) (i : Nat) (b : SourceBlock)
    (hf : findSrc dom i = some b) : srcText dom i = jsTrim b.text := by
  unfold srcText
  rw [hf]

theorem setAdd_erase (s : List String) (t : String) (h : t ∉ s) :
    (setAdd s t).erase t = s := by
  unfold setAdd
  rw [if_neg h, List.erase_cons_head]

/-- A block failing one of the processed / `PRE`-parent / non-empty
checks leaves the whole scan state untouched. -/
theorem processBlock_noncand (render : RenderFn) (st : ScanState) (i : Nat)
    (h : isTextCandidate st.dom i = false) :
    processBlock render st i = st := by
  unfold processBlock
  unfold isTextCandidate at h
  rcases hf : findSrc st.dom i with _ | b
  · rfl
  · rw [hf] at h
    by_cases hp : b.processed = true
    · simp [hp]
    · by_cases hpre : b.parentIsPre = true
      · have ht : jsTrim b.text = "" := by
          simp [hp, hpre] at h
          exact h
        simp [hp, hpre, ht]
      · simp [hp, hpre]

/-- A candidate whose text is in the Rendering Set: the id counter is
consumed but nothing else happens (skip without marking processed). -/
theorem processBlock_setSkip (render : RenderFn) (st : ScanState) (i : Nat)
    (h : isTextCandidate st.dom i = true)
    (hmem : srcText st.dom i ∈ st.rendering) :
    processBlock render st i = { st with counter := st.counter + 1 } := by
  unfold processBlock
  unfold isTextCandidate at h
  rcases hf : findSrc st.dom i with _ | b
  · rw [hf] at h
    exact absurd h (by simp)
  · rw [hf] at h
    rw [srcText_eq st.dom i b hf] at hmem
    simp only [Bool.and_eq_true, Bool.not_eq_true'] at h
    obtain ⟨⟨hp, hpre⟩, ht⟩ := h
    have ht' : ¬ jsTrim b.text = "" := by simpa using ht
    simp [hp, hpre, ht', hmem, generateMermaidId]

/-- A candidate not in the Rendering Set whose render succeeds. -/
theorem processBlock_renders_ok (render : RenderFn) (st : ScanState) (i : Nat)
    (h : isTextCandidate st.dom i = true)
    (hmem : srcText st.dom i ∉ st.rendering) (svg : String)
    (hr : render (st.counter + 1) (srcText st.dom i) = .ok svg) :
    processBlock render st i =
      ⟨updateSrc
          (insertAfter (updateSrc st.dom i fun b => { b with processed := true })
            i (.diagramOut svg))
          i fun b => { b with hidden := true },
       st.rendering, st.counter + 1,
       st.events ++ [.renderStart (st.counter + 1) (srcText st.dom i),
                     .renderEnd (st.counter + 1) (srcText st.dom i)]⟩ := by
  unfold processBlock
  unfold isTextCandidate at h
  rcases hf : findSrc st.dom i with _ | b
  · rw [hf] at h
    exact absurd h (by simp)
  · rw [hf] at h
    rw [srcText_eq st.dom i b hf] at hmem hr ⊢
    simp only [Bool.and_eq_true, Bool.not_eq_true'] at h
    obtain ⟨⟨hp, hpre⟩, ht⟩ := h
    have ht' : ¬ jsTrim b.text = "" := by simpa using ht
    simp [hp, hpre, ht', hmem, generateMermaidId, hr, setAdd_erase st.rendering _ hmem]

/-- A candidate not in the Rendering Set whose render fails. -/
theorem processBlock_renders_err (render : RenderFn) (st : ScanState) (i : Nat)
    (h : isTextCandidate st.dom i = true)
    (hmem : srcText st.dom i ∉ st.rendering) (e : Option String)
    (hr : render (st.counter + 1) (srcText st.dom i) = .error e) :
    processBlock render st i =
      ⟨updateSrc
          (insertAfter (updateSrc st.dom i fun b => { b with processed := true })
            i (.errOut (errorText e)))
          i fun b => { b with processed := false },
       st.rendering, st.counter + 1,
       st.events ++ [.renderStart (st.counter + 1) (srcText st.dom i),
                     .renderEnd (st.counter + 1) (srcText st.dom i)]⟩ := by
  unfold processBlock
  unfold isTextCandidate at h
  rcases hf : findSrc st.dom i with _ | b
  · rw [hf] at h
    exact absurd h (by simp)
  · rw [hf] at h
    rw [srcText_eq st.dom i b hf] at hmem hr ⊢
    simp only [Bool.and_eq_true, Bool.not_eq_true'] at h
    obtain ⟨⟨hp, hpre⟩, ht⟩ := h
    have ht' : ¬ jsTrim b.text = "" := by simpa using ht
    simp [hp, hpre, ht', hmem, generateMermaidId, hr, setAdd_erase st.rendering _ hmem]

/-! ## Per-iteration facts -/

/-- The `finally` always restores `renderingRef` to what this iteration
found it to be. -/
theorem rendering_processBlock (render : RenderFn) (st : ScanState) (i : Nat) :
    (processBlock render st i).rendering = st.rendering := by
  by_cases h : isTextCandidate st.dom i = true
  · by_cases hmem : srcText st.dom i ∈ st.rendering
    · rw [processBlock_setSkip render st i h hmem]
    · rcases hr : render (st.counter + 1) (srcText st.dom i) with e | svg
      · rw [processBlock_renders_err render st i h hmem e hr]
      · rw [processBlock_renders_ok render st i h hmem svg hr]
  · rw [processBlock_noncand render st i (by simpa using h)]

/-- The id counter advances exactly when the block passes the
non-empty-text check, whether or not the rendering-set skip fires. -/
theorem counter_processBlock (render : RenderFn) (st : ScanState) (i : Nat) :
    (processBlock render st i).counter
      = st.counter + (if isTextCandidate st.dom i then 1 else 0) := by
  by_cases h : isTextCandidate st.dom i = true
  · rw [if_pos h]
    by_cases hmem : srcText st.dom i ∈ st.rendering
    · rw [processBlock_setSkip render st i h hmem]
    · rcases hr : render (st.counter + 1) (srcText st.dom i) with e | svg
      · rw [processBlock_renders_err render st i h hmem e hr]
      · rw [processBlock_renders_ok render st i h hmem svg hr]
  · rw [processBlock_noncand render st i (by simpa using h)]
    simp [h]

/-- One iteration either leaves the trace alone (counter possibly
advancing), or appends exactly one initiation/settlement pair carrying
the freshly generated id. -/
theorem events_counter_processBlock (render : RenderFn) (st : ScanState) (i : Nat) :
    ((processBlock render st i).events = st.events
      ∧ st.counter ≤ (processBlock render st i).counter)
    ∨ (∃ t, (processBlock render st i).events
          = st.events ++ [.renderStart (st.counter + 1) t,
                          .renderEnd (st.counter + 1) t]
        ∧ (processBlock render st i).counter = st.counter + 1) := by
  by_cases h : isTextCandidate st.dom i = true
  · by_cases hmem : srcText st.dom i ∈ st.rendering
    · rw [processBlock_setSkip render st i h hmem]
      exact Or.inl ⟨rfl, Nat.le_succ _⟩
    · rcases hr : render (st.counter + 1) (srcText st.dom i) with e | svg
      · rw [processBlock_renders_err render st i h hmem e hr]
        exact Or.inr ⟨srcText st.dom i, rfl, rfl⟩
      · rw [processBlock_renders_ok render st i h hmem svg hr]
        exact Or.inr ⟨srcText st.dom i, rfl, rfl⟩
  · rw [processBlock_noncand render st i (by simpa using h)]
    exact Or.inl ⟨rfl, Nat.le_refl _⟩

/-- Element lookups for other blocks are unaffected by one iteration. -/
theorem findSrc_processBlock_ne (render : RenderFn) (st : ScanState) (i j : Nat)
    (hij : j ≠ i) :
    findSrc (processBlock render st i).dom j = findSrc st.dom j := by
  have hpr : ∀ b : SourceBlock, ({ b with processed := true } : SourceBlock).sid = b.sid :=
    fun _ => rfl
  have hpf : ∀ b : SourceBlock, ({ b with processed := false } : SourceBlock).sid = b.sid :=
    fun _ => rfl
  have hhd : ∀ b : SourceBlock, ({ b with hidden := true } : SourceBlock).sid = b.sid :=
    fun _ => rfl
  by_cases h : isTextCandidate st.dom i = true
  · by_cases hmem : srcText st.dom i ∈ st.rendering
    · rw [processBlock_setSkip render st i h hmem]
    · rcases hr : render (st.counter + 1) (srcText st.dom i) with e | svg
      · rw [processBlock_renders_err render st i h hmem e hr]
        rw [findSrc_updateSrc_ne _ _ _ _ hpf hij,
          findSrc_insertAfter_not_src _ _ _ _ (fun b => by simp),
          findSrc_updateSrc_ne _ _ _ _ hpr hij]
      · rw [processBlock_renders_ok render st i h hmem svg hr]
        rw [findSrc_updateSrc_ne _ _ _ _ hhd hij,
          findSrc_insertAfter_not_src _ _ _ _ (fun b => by simp),
          findSrc_updateSrc_ne _ _ _ _ hpr hij]
  · rw [processBlock_noncand render st i (by simpa using h)]

/-- Candidate status of other blocks is unaffected by one iteration. -/
theorem cand_processBlock_ne (render : RenderFn) (st : ScanState) (i j : Nat)
    (hij : j ≠ i) :
    isTextCandidate (processBlock render st i).dom j = isTextCandidate st.dom j := by
  unfold isTextCandidate
  rw [findSrc_processBlock_ne render st i j hij]

/-- One iteration preserves the set of source-block identities
(insertions are non-source siblings; updates keep identities). -/
theorem snapshot_processBlock (render : RenderFn) (st : ScanState) (i : Nat) :
    snapshot (processBlock render st i).dom = snapshot st.dom := by
  have hpr : ∀ b : SourceBlock, ({ b with processed := true } : SourceBlock).sid = b.sid :=
    fun _ => rfl
  have hpf : ∀ b : SourceBlock, ({ b with processed := false } : SourceBlock).sid = b.sid :=
    fun _ => rfl
  have hhd : ∀ b : SourceBlock, ({ b with hidden := true } : SourceBlock).sid = b.sid :=
    fun _ => rfl
  by_cases h : isTextCandidate st.dom i = true
  · by_cases hmem : srcText st.dom i ∈ st.rendering
    · rw [processBlock_setSkip render st i h hmem]
    · rcases hr : render (st.counter + 1) (srcText st.dom i) with e | svg
      · rw [processBlock_renders_err render st i h hmem e hr]
        rw [snapshot_updateSrc _ _ _ hpf,
          snapshot_insertAfter_not_src _ _ _ (fun b => by simp),
          snapshot_updateSrc _ _ _ hpr]
      · rw [processBlock_renders_ok render st i h hmem svg hr]
        rw [snapshot_updateSrc _ _ _ hhd,
          snapshot_insertAfter_not_src _ _ _ (fun b => by simp),
          snapshot_updateSrc _ _ _ hpr]
  · rw [processBlock_noncand render st i (by simpa using h)]

/-- A formerly skipped block never becomes a candidate by someone
else's iteration: non-candidacy is preserved. -/
theorem cand_processBlock_mono (render : RenderFn) (st : ScanState) (i j : Nat)
    (h : isTextCandidate st.dom j = false) :
    isTextCandidate (processBlock render st i).dom j = false := by
  by_cases hij : j = i
  · subst hij
    rw [processBlock_noncand render st j h]
    exact h
  · rw [cand_processBlock_ne render st i j hij]
    exact h

/-- A successfully rendered block is marked processed and is no longer
a candidate. -/
theorem cand_processBlock_self_ok (render : RenderFn) (st : ScanState) (i : Nat)
    (svg : String) (h : isTextCandidate st.dom i = true)
    (hmem : srcText st.dom i ∉ st.rendering)
    (hr : render (st.counter + 1) (srcText st.dom i) = .ok svg) :
    isTextCandidate (processBlock render st i).dom i = false := by
  rw [processBlock_renders_ok render st i h hmem svg hr]
  show isTextCandidate
      (updateSrc
        (insertAfter (updateSrc st.dom i fun b => { b with processed := true })
          i (.diagramOut svg))
        i fun b => { b with hidden := true }) i = false
  unfold isTextCandidate
  rw [findSrc_updateSrc_self _ _ (fun b => { b with hidden := true }) (fun _ => rfl),
    findSrc_insertAfter_not_src _ _ _ _ (fun b => by simp),
    findSrc_updateSrc_self _ _ (fun b => { b with processed := true }) (fun _ => rfl)]
  rcases findSrc st.dom i with _ | b
  · rfl
  · simp

/-! ## Whole-pass facts -/

theorem runPass_nil (render : RenderFn) (st : ScanState) :
    runPass render st [] = st := rfl

theorem runPass_cons (render : RenderFn) (st : ScanState) (i : Nat) (rest : List Nat) :
    runPass render st (i :: rest) = runPass render (processBlock render st i) rest := rfl

/-- After a whole pass the Rendering Set is exactly what the pass found
it to be. -/
theorem rendering_runPass (render : RenderFn) (st : ScanState) (ids : List Nat) :
    (runPass render st ids).rendering = st.rendering := by
  induction ids generalizing st with
  | nil => rfl
  | cons i rest ih =>
    rw [runPass_cons, ih, rendering_processBlock]

theorem snapshot_runPass (render : RenderFn) (st : ScanState) (ids : List Nat) :
    snapshot (runPass render st ids).dom = snapshot st.dom := by
  induction ids generalizing st with
  | nil => rfl
  | cons i rest ih =>
    rw [runPass_cons, ih, snapshot_processBlock]

/-- `mermaidIdCounter` advances by exactly the number of examined
blocks that pass the non-empty-text check, whatever the Rendering Set
contains. -/
theorem counter_runPass (render : RenderFn) (st : ScanState) (ids : List Nat)
    (hnd : ids.Nodup) :
    (runPass render st ids).counter
      = st.counter + ids.countP (fun j => isTextCandidate st.dom j) := by
  induction ids generalizing st with
  | nil => simp [runPass_nil]
  | cons i rest ih =>
    obtain ⟨hni, hndr⟩ := List.nodup_cons.mp hnd
    rw [runPass_cons, ih (processBlock render st i) hndr]
    have hcong : rest.countP (fun j => isTextCandidate (processBlock render st i).dom j)
        = rest.countP (fun j => isTextCandidate st.dom j) := by
      apply List.countP_congr
      intro j hj
      have hij : j ≠ i := fun hh => hni (hh ▸ hj)
      rw [cand_processBlock_ne render st i j hij]
    rw [hcong, counter_processBlock, List.countP_cons]
    omega

/-- A pass over blocks none of which is a candidate is a strict no-op. -/
theorem runPass_noncand_all (render : RenderFn) (st : ScanState) (ids : List Nat)
    (h : ∀ i ∈ ids, isTextCandidate st.dom i = false) :
    runPass render st ids = st := by
  induction ids with
  | nil => rfl
  | cons i rest ih =>
    rw [runPass_cons, processBlock_noncand render st i (h i (List.mem_cons_self i rest))]
    exact ih fun j hj => h j (List.mem_cons_of_mem _ hj)

/-- With an always-successful renderer and an empty Rendering Set, a
pass leaves every block it examined (and every block that was already a
non-candidate) a non-candidate. -/
theorem runPass_clears (render : RenderFn)
    (hok : ∀ id t, ∃ svg, render id t = .ok svg) :
    ∀ (ids : List Nat) (st : ScanState), ids.Nodup → st.rendering = [] →
      ∀ j, (isTextCandidate st.dom j = false ∨ j ∈ ids) →
        isTextCandidate (runPass render st ids).dom j = false := by
  intro ids
  induction ids with
  | nil =>
    intro st _ _ j hj
    rcases hj with h | h
    · simpa [runPass_nil] using h
    · exact absurd h (List.not_mem_nil j)
  | cons i rest ih =>
    intro st hnd hre j hj
    obtain ⟨hni, hndr⟩ := List.nodup_cons.mp hnd
    rw [runPass_cons]
    apply ih (processBlock render st i) hndr
      (by rw [rendering_processBlock]; exact hre)
    rcases hj with h | h
    · exact Or.inl (cand_processBlock_mono render st i j h)
    · rcases List.mem_cons.mp h with rfl | hr
      · refine Or.inl ?_
        by_cases hc : isTextCandidate st.dom j = true
        · have hmem : srcText st.dom j ∉ st.rendering := by
            rw [hre]
            exact List.not_mem_nil _
          obtain ⟨svg, hsvg⟩ := hok (st.counter + 1) (srcText st.dom j)
          exact cand_processBlock_self_ok render st j svg hc hmem hsvg
        · exact cand_processBlock_mono render st j j (by simpa using hc)
      · exact Or.inr hr

/-- With an empty Rendering Set, a pass initiates one render per
examined candidate — in particular one per block of a pair with
identical text. -/
theorem starts_processBlock_empty (render : RenderFn) (st : ScanState) (i : Nat)
    (hre : st.rendering = []) :
    (processBlock render st i).events.countP Event.isStart
      = st.events.countP Event.isStart
        + (if isTextCandidate st.dom i then 1 else 0) := by
  by_cases h : isTextCandidate st.dom i = true
  · have hmem : srcText st.dom i ∉ st.rendering := by
      rw [hre]
      exact List.not_mem_nil _
    rcases hr : render (st.counter + 1) (srcText st.dom i) with e | svg
    · rw [processBlock_renders_err render st i h hmem e hr]
      simp [List.countP_append, List.countP_cons, Event.isStart, h]
    · rw [processBlock_renders_ok render st i h hmem svg hr]
      simp [List.countP_append, List.countP_cons, Event.isStart, h]
  · rw [processBlock_noncand render st i (by simpa using h)]
    simp [h]

theorem starts_runPass_empty (render : RenderFn) (st : ScanState) (ids : List Nat)
    (hnd : ids.Nodup) (hre : st.rendering = []) :
    (runPass render st ids).events.countP Event.isStart
      = st.events.countP Event.isStart
        + ids.countP (fun j => isTextCandidate st.dom j) := by
  induction ids generalizing st with
  | nil => simp [runPass_nil]
  | cons i rest ih =>
    obtain ⟨hni, hndr⟩ := List.nodup_cons.mp hnd
    rw [runPass_cons,
      ih (processBlock render st i) hndr (by rw [rendering_processBlock]; exact hre)]
    have hcong : rest.countP (fun j => isTextCandidate (processBlock render st i).dom j)
        = rest.countP (fun j => isTextCandidate st.dom j) := by
      apply List.countP_congr
      intro j hj
      have hij : j ≠ i := fun hh => hni (hh ▸ hj)
      rw [cand_processBlock_ne render st i j hij]
    rw [hcong, starts_processBlock_empty render st i hre, List.countP_cons]
    omega

/-! ## Positional form of the DOM patches -/

theorem updateSrc_append (l1 l2 : Dom) (i : Nat) (f : SourceBlock → SourceBlock) :
    updateSrc (l1 ++ l2) i f = updateSrc l1 i f ++ updateSrc l2 i f := by
  unfold updateSrc
  exact List.map_append _ _ _

theorem updateSrc_no_match (dom : Dom) (i : Nat) (f : SourceBlock → SourceBlock)
    (h : ∀ n ∈ dom, n.isSrcId i = false) : updateSrc dom i f = dom := by
  induction dom with
  | nil => rfl
  | cons n rest ih =>
    have hrest := ih fun m hm => h m (List.mem_cons_of_mem _ hm)
    rcases n with b | s | m
    · have hb : ¬ b.sid = i :=
        of_decide_eq_false (h (.src b) (List.mem_cons_self _ _))
      rw [updateSrc_cons_src, if_neg hb, hrest]
    · rw [updateSrc_cons_diagram, hrest]
    · rw [updateSrc_cons_err, hrest]

theorem updateSrc_append_mid (domL : Dom) (b : SourceBlock) (domR : Dom)
    (i : Nat) (f : SourceBlock → SourceBlock)
    (hL : ∀ n ∈ domL, n.isSrcId i = false)
    (hR : ∀ n ∈ domR, n.isSrcId i = false) (hb : b.sid = i) :
    updateSrc (domL ++ .src b :: domR) i f = domL ++ .src (f b) :: domR := by
  rw [updateSrc_append, updateSrc_no_match domL i f hL, updateSrc_cons_src,
    if_pos hb, updateSrc_no_match domR i f hR]

theorem insertAfter_append_mid (domL : Dom) (b : SourceBlock) (domR : Dom)
    (i : Nat) (x : Node) (hL : ∀ n ∈ domL, n.isSrcId i = false)
    (hb : b.sid = i) :
    insertAfter (domL ++ .src b :: domR) i x = domL ++ .src b :: x :: domR := by
  induction domL with
  | nil =>
    simp only [List.nil_append, insertAfter]
    rw [if_pos (by simp [Node.isSrcId, hb])]
  | cons n rest ih =>
    have hn : ¬ n.isSrcId i = true := by
      rw [hL n (List.mem_cons_self _ _)]
      exact Bool.false_ne_true
    simp only [List.cons_append, insertAfter, List.append_eq]
    rw [if_neg hn, ih fun m hm => hL m (List.mem_cons_of_mem _ hm)]

theorem findSrc_append_mid (domL : Dom) (b : SourceBlock) (domR : Dom) (i : Nat)
    (hL : ∀ n ∈ domL, n.isSrcId i = false) (hb : b.sid = i) :
    findSrc (domL ++ .src b :: domR) i = some b := by
  induction domL with
  | nil =>
    rw [List.nil_append, findSrc_cons_src, if_pos hb]
  | cons n rest ih =>
    have hrest := ih fun m hm => hL m (List.mem_cons_of_mem _ hm)
    rcases n with b' | s | m
    · have hb' : ¬ b'.sid = i :=
        of_decide_eq_false (hL (.src b') (List.mem_cons_self _ _))
      rw [List.cons_append, findSrc_cons_src, if_neg hb', hrest]
    · rw [List.cons_append, findSrc_cons_diagram, hrest]
    · rw [List.cons_append, findSrc_cons_err, hrest]

/-- The failing iteration, in positional form: the error panel lands
directly after the block's `<pre>`, the block itself comes out exactly
as it went in (processed attribute removed again, hidden class not
gained, source text intact), the Rendering Set is restored, the counter
advanced, and one render was attempted. -/
theorem processBlock_err_positional (render : RenderFn) (st : ScanState)
    (i : Nat) (b : SourceBlock) (domL domR : Dom)
    (hdom : st.dom = domL ++ .src b :: domR)
    (hL : ∀ n ∈ domL, n.isSrcId i = false)
    (hR : ∀ n ∈ domR, n.isSrcId i = false)
    (hb : b.sid = i) (hp : b.processed = false) (hpre : b.parentIsPre = true)
    (ht : jsTrim b.text ≠ "") (hmem : jsTrim b.text ∉ st.rendering)
    (e : Option String)
    (hr : render (st.counter + 1) (jsTrim b.text) = .error e) :
    (processBlock render st i).dom
        = domL ++ .src b :: .errOut (errorText e) :: domR
    ∧ (processBlock render st i).rendering = st.rendering
    ∧ (processBlock render st i).counter = st.counter + 1
    ∧ (processBlock render st i).events
        = st.events ++ [.renderStart (st.counter + 1) (jsTrim b.text),
                        .renderEnd (st.counter + 1) (jsTrim b.text)] := by
  have hfind : findSrc st.dom i = some b := by
    rw [hdom]
    exact findSrc_append_mid domL b domR i hL hb
  have hcand : isTextCandidate st.dom i = true := by
    unfold isTextCandidate
    rw [hfind]
    simp [hp, hpre, ht]
  have hst : srcText st.dom i = jsTrim b.text := srcText_eq st.dom i b hfind
  have heq := processBlock_renders_err render st i hcand (hst ▸ hmem) e (hst ▸ hr)
  rw [hst] at heq
  rw [heq]
  refine ⟨?_, rfl, rfl, rfl⟩
  show updateSrc
      (insertAfter (updateSrc st.dom i fun b => { b with processed := true })
        i (.errOut (errorText e)))
      i (fun b => { b with processed := false })
    = domL ++ .src b :: .errOut (errorText e) :: domR
  rw [hdom,
    updateSrc_append_mid domL b domR i _ hL hR hb,
    insertAfter_append_mid domL { b with processed := true } domR i
      (.errOut (errorText e)) hL hb,
    updateSrc_append_mid domL { b with processed := true }
      (.errOut (errorText e) :: domR) i _ hL
      (by
        intro n hn
        rcases List.mem_cons.mp hn with rfl | hn
        · rfl
        · exact hR n hn)
      hb]
  obtain ⟨s, tx, p, pr, hd⟩ := b
  simp only at hp
  subst hp
  rfl

/-- The successful iteration, in positional form: the diagram container
lands directly after the block's `<pre>`, the block is marked processed
and gains the hidden class but keeps its text and stays in the DOM, the
Rendering Set is restored, and the counter advanced. -/
theorem processBlock_ok_positional (render : RenderFn) (st : ScanState)
    (i : Nat) (b : SourceBlock) (domL domR : Dom)
    (hdom : st.dom = domL ++ .src b :: domR)
    (hL : ∀ n ∈ domL, n.isSrcId i = false)
    (hR : ∀ n ∈ domR, n.isSrcId i = false)
    (hb : b.sid = i) (hp : b.processed = false) (hpre : b.parentIsPre = true)
    (ht : jsTrim b.text ≠ "") (hmem : jsTrim b.text ∉ st.rendering)
    (svg : String)
    (hr : render (st.counter + 1) (jsTrim b.text) = .ok svg) :
    (processBlock render st i).dom
        = domL ++ .src { b with processed := true, hidden := true }
            :: .diagramOut svg :: domR
    ∧ (processBlock render st i).rendering = st.rendering
    ∧ (processBlock render st i).counter = st.counter + 1
    ∧ (processBlock render st i).events
        = st.events ++ [.renderStart (st.counter + 1) (jsTrim b.text),
                        .renderEnd (st.counter + 1) (jsTrim b.text)] := by
  have hfind : findSrc st.dom i = some b := by
    rw [hdom]
    exact findSrc_append_mid domL b domR i hL hb
  have hcand : isTextCandidate st.dom i = true := by
    unfold isTextCandidate
    rw [hfind]
    simp [hp, hpre, ht]
  have hst : srcText st.dom i = jsTrim b.text := srcText_eq st.dom i b hfind
  have heq := processBlock_renders_ok render st i hcand (hst ▸ hmem) svg (hst ▸ hr)
  rw [hst] at heq
  rw [heq]
  refine ⟨?_, rfl, rfl, rfl⟩
  show updateSrc
      (insertAfter (updateSrc st.dom i fun b => { b with processed := true })
        i (.diagramOut svg))
      i (fun b => { b with hidden := true })
    = domL ++ .src { b with processed := true, hidden := true }
        :: .diagramOut svg :: domR
  rw [hdom,
    updateSrc_append_mid domL b domR i _ hL hR hb,
    insertAfter_append_mid domL { b with processed := true } domR i
      (.diagramOut svg) hL hb,
    updateSrc_append_mid domL { b with processed := true }
      (.diagramOut svg :: domR) i _ hL
      (by
        intro n hn
        rcases List.mem_cons.mp hn with rfl | hn
        · rfl
        · exact hR n hn)
      hb]

/-! ## Trace shape -/

theorem sequentialTrace_nil : SequentialTrace [] := by
  intro n id t h
  simp at h

theorem startsOrdered_nil : StartsOrdered [] := by
  intro n m id1 t1 id2 t2 _ h
  simp at h

theorem eventsBounded_nil (c : Nat) : EventsBounded [] c :=
  fun ev h => absurd h (List.not_mem_nil ev)

theorem eventsBounded_append_pair (tr : List Event) (c c' : Nat) (id : Nat)
    (t : String) (h : EventsBounded tr c) (hc : c ≤ c') (hid : id ≤ c') :
    EventsBounded (tr ++ [.renderStart id t, .renderEnd id t]) c' := by
  intro ev hm
  rcases List.mem_append.mp hm with hm | hm
  · exact le_trans (h ev hm) hc
  · rcases List.mem_cons.mp hm with rfl | hm
    · exact hid
    · rcases List.mem_cons.mp hm with rfl | hm
      · exact hid
      · exact absurd hm (List.not_mem_nil ev)

theorem sequentialTrace_append_pair (tr : List Event) (id : Nat) (t : String)
    (h : SequentialTrace tr) :
    SequentialTrace (tr ++ [.renderStart id t, .renderEnd id t]) := by
  intro n id' t' hn
  rw [List.getElem?_append] at hn
  by_cases hlt : n < tr.length
  · rw [if_pos hlt] at hn
    have h2 := h n id' t' hn
    have hlen : n + 1 < tr.length := (List.getElem?_eq_some.mp h2).1
    rw [List.getElem?_append, if_pos hlen]
    exact h2
  · rw [if_neg hlt] at hn
    rcases hd : n - tr.length with _ | k
    · rw [hd] at hn
      have hin : Event.renderStart id t = Event.renderStart id' t' := by
        simpa using hn

      obtain ⟨rfl, rfl⟩ : id = id' ∧ t = t' := by
        cases hin
        exact ⟨rfl, rfl⟩
      have hne : n = tr.length := by omega
      subst hne
      rw [List.getElem?_append, if_neg (by omega)]
      have hone : tr.length + 1 - tr.length = 1 := by omega
      rw [hone]
      rfl
    · rw [hd] at hn
      rcases k with _ | k2
      · simp at hn
      · rw [List.getElem?_eq_none
          (by simp only [List.length_cons, List.length_nil]; omega)] at hn
        exact Option.noConfusion hn

theorem startsOrdered_append_pair (tr : List Event) (c : Nat) (id : Nat)
    (t : String) (hb : EventsBounded tr c) (ho : StartsOrdered tr)
    (hid : c < id) :
    StartsOrdered (tr ++ [.renderStart id t, .renderEnd id t]) := by
  intro n m id1 t1 id2 t2 hnm hn hm
  rw [List.getElem?_append] at hn hm
  by_cases hmlt : m < tr.length
  · have hnlt : n < tr.length := lt_trans hnm hmlt
    rw [if_pos hnlt] at hn
    rw [if_pos hmlt] at hm
    exact ho n m id1 t1 id2 t2 hnm hn hm
  · rw [if_neg hmlt] at hm
    by_cases hnlt : n < tr.length
    · rw [if_pos hnlt] at hn
      have hm1 : id2 = id := by
        rcases hd : m - tr.length with _ | k
        · rw [hd] at hm
          have hin : Event.renderStart id t = Event.renderStart id2 t2 := by
            simpa using hm
          cases hin
          rfl
        · rw [hd] at hm
          rcases k with _ | k2
          · simp at hm
          · rw [List.getElem?_eq_none
              (by simp only [List.length_cons, List.length_nil]; omega)] at hm
            exact Option.noConfusion hm
      have hmem : Event.renderStart id1 t1 ∈ tr := by
        obtain ⟨hl, he⟩ := List.getElem?_eq_some.mp hn
        exact he ▸ List.getElem_mem hl
      have hb1 : (Event.renderStart id1 t1).eid ≤ c := hb _ hmem
      simp only [Event.eid] at hb1
      omega
    · rw [if_neg hnlt] at hn
      rcases hd : m - tr.length with _ | k
      · omega
      · rw [hd] at hm
        rcases k with _ | k2
        · simp at hm
        · rw [List.getElem?_eq_none
            (by simp only [List.length_cons, List.length_nil]; omega)] at hm
          exact Option.noConfusion hm

/-- The whole-pass trace invariant: identifiers stay bounded by the
counter, every initiation is immediately followed by its settlement,
and initiations occur in strictly increasing identifier order. -/
theorem trace_runPass (render : RenderFn) (st : ScanState) (ids : List Nat)
    (hb : EventsBounded st.events st.counter)
    (hs : SequentialTrace st.events)
    (ho : StartsOrdered st.events) :
    EventsBounded (runPass render st ids).events (runPass render st ids).counter
    ∧ SequentialTrace (runPass render st ids).events
    ∧ StartsOrdered (runPass render st ids).events := by
  induction ids generalizing st with
  | nil => exact ⟨hb, hs, ho⟩
  | cons i rest ih =>
    rw [runPass_cons]
    apply ih
    · rcases events_counter_processBlock render st i with ⟨he, hc⟩ | ⟨t, he, hc⟩
      · rw [he]
        exact fun ev hm => le_trans (hb ev hm) hc
      · rw [he, hc]
        exact eventsBounded_append_pair st.events st.counter (st.counter + 1)
          (st.counter + 1) t hb (Nat.le_succ _) (le_refl _)
    · rcases events_counter_processBlock render st i with ⟨he, _⟩ | ⟨t, he, _⟩
      · rw [he]
        exact hs
      · rw [he]
        exact sequentialTrace_append_pair st.events (st.counter + 1) t hs
    · rcases events_counter_processBlock render st i with ⟨he, _⟩ | ⟨t, he, _⟩
      · rw [he]
        exact ho
      · rw [he]
        exact startsOrdered_append_pair st.events st.counter (st.counter + 1) t
          hb ho (Nat.lt_succ_self _)

/-! ## The interleaving invariant -/

theorem syncRun_cons (dom : Dom) (r : List String) (c : Nat) (i : Nat)
    (rest : List Nat) :
    syncRun dom r c (i :: rest)
      = match findSrc dom i with
        | none => syncRun dom r c rest
        | some b =>
          if b.processed then syncRun dom r c rest
          else if !b.parentIsPre then syncRun dom r c rest
          else
            if jsTrim b.text = "" then syncRun dom r c rest
            else
              if jsTrim b.text ∈ r then syncRun dom r (generateMermaidId c) rest
              else
                ⟨updateSrc dom i fun b => { b with processed := true },
                 setAdd r (jsTrim b.text), generateMermaidId c,
                 .awaiting i (generateMermaidId c) (jsTrim b.text) rest⟩ := rfl

/-- Running a synchronous stretch either ends the pass with the
Rendering Set untouched, or suspends on exactly one render whose text
was not in the set and is now its extra element. -/
theorem syncRun_spec (dom : Dom) (r : List String) :
    ∀ (pend : List Nat) (c : Nat),
      ((syncRun dom r c pend).phase = PassPhase.done
        ∧ (syncRun dom r c pend).rendering = r)
      ∨ (∃ i rid t p,
          (syncRun dom r c pend).phase = PassPhase.awaiting i rid t p
          ∧ t ∉ r ∧ (syncRun dom r c pend).rendering = t :: r) := by
  intro pend
  induction pend with
  | nil => exact fun c => Or.inl ⟨rfl, rfl⟩
  | cons i rest ih =>
    intro c
    rw [syncRun_cons]
    rcases hf : findSrc dom i with _ | b
    · exact ih c
    · dsimp only
      by_cases hp : b.processed = true
      · rw [if_pos hp]
        exact ih c
      · rw [if_neg hp]
        by_cases hpre : b.parentIsPre = true
        · rw [if_neg (by simp [hpre])]
          by_cases ht : jsTrim b.text = ""
          · rw [if_pos ht]
            exact ih c
          · rw [if_neg ht]
            by_cases hmem : jsTrim b.text ∈ r
            · rw [if_pos hmem]
              exact ih (generateMermaidId c)
            · rw [if_neg hmem]
              refine Or.inr ⟨i, generateMermaidId c, jsTrim b.text, rest, rfl, hmem, ?_⟩
              show setAdd r (jsTrim b.text) = jsTrim b.text :: r
              unfold setAdd
              rw [if_neg hmem]
        · have hpre' : b.parentIsPre = false := Bool.eq_false_iff.mpr hpre
          rw [if_pos (show (!b.parentIsPre) = true by rw [hpre']; rfl)]
          exact ih c

theorem syncRun_awaiting (dom : Dom) (r : List String) (c : Nat)
    (pend : List Nat) (i rid : Nat) (t : String) (p : List Nat)
    (h : (syncRun dom r c pend).phase = PassPhase.awaiting i rid t p) :
    t ∉ r ∧ (syncRun dom r c pend).rendering = t :: r := by
  rcases syncRun_spec dom r pend c with ⟨hd, _⟩ | ⟨i', rid', t', p', hph, hmem, hre⟩
  · rw [h] at hd
    exact PassPhase.noConfusion hd
  · rw [h] at hph
    injection hph with h1 h2 h3 h4
    subst h3
    exact ⟨hmem, hre⟩

theorem syncRun_superset (dom : Dom) (r : List String) (c : Nat)
    (pend : List Nat) (x : String) (hx : x ∈ r) :
    x ∈ (syncRun dom r c pend).rendering := by
  rcases syncRun_spec dom r pend c with ⟨_, hre⟩ | ⟨i, rid, t, p, _, _, hre⟩
  · rw [hre]
    exact hx
  · rw [hre]
    exact List.mem_cons_of_mem _ hx

/-- Settlement always removes the text from the Rendering Set — in the
success and in the failure case alike (the `finally` clause). -/
theorem settleCore_rendering (dom : Dom) (r : List String) (i : Nat)
    (t : String) (o : Except (Option String) String) :
    (settleCore dom r i t o).2 = r.erase t := by
  cases o <;> rfl

theorem renderingInv_init (dom0 : Dom) (c0 : Nat) :
    RenderingInv ⟨dom0, [], c0, []⟩ := by
  constructor
  · rintro k t ⟨i, rid, p, hk⟩
    simp at hk
  · rintro k j t _ ⟨i1, r1, p1, hk⟩ _
    simp at hk

/-- Every event-loop step preserves the rendering-set invariant. -/
theorem renderingInv_step (s s' : GlobalState) (hstep : SysStep s s')
    (hi : RenderingInv s) : RenderingInv s' := by
  cases hstep with
  | spawn =>
    constructor
    · rintro k t ⟨i, rid, p, hk⟩
      rw [List.getElem?_append] at hk
      by_cases hlt : k < s.passes.length
      · rw [if_pos hlt] at hk
        exact syncRun_superset _ _ _ _ t (hi.1 k t ⟨i, rid, p, hk⟩)
      · rw [if_neg hlt] at hk
        rcases hd : k - s.passes.length with _ | k2
        · rw [hd] at hk
          have hph : (syncRun s.dom s.rendering s.counter (snapshot s.dom)).phase
              = PassPhase.awaiting i rid t p := by
            simpa using hk
          rw [(syncRun_awaiting _ _ _ _ _ _ _ _ hph).2]
          exact List.mem_cons_self _ _
        · rw [hd, List.getElem?_eq_none
            (by simp only [List.length_cons, List.length_nil]; omega)] at hk
          exact Option.noConfusion hk
    · rintro k j t hkj ⟨i1, r1, p1, hk⟩ ⟨i2, r2, p2, hj⟩
      rw [List.getElem?_append] at hk hj
      by_cases hklt : k < s.passes.length
      · by_cases hjlt : j < s.passes.length
        · rw [if_pos hklt] at hk
          rw [if_pos hjlt] at hj
          exact hi.2 k j t hkj ⟨i1, r1, p1, hk⟩ ⟨i2, r2, p2, hj⟩
        · rw [if_pos hklt] at hk
          rw [if_neg hjlt] at hj
          have hmem := hi.1 k t ⟨i1, r1, p1, hk⟩
          rcases hd : j - s.passes.length with _ | j2
          · rw [hd] at hj
            have hph : (syncRun s.dom s.rendering s.counter (snapshot s.dom)).phase
                = PassPhase.awaiting i2 r2 t p2 := by
              simpa using hj
            exact (syncRun_awaiting _ _ _ _ _ _ _ _ hph).1 hmem
          · rw [hd, List.getElem?_eq_none
              (by simp only [List.length_cons, List.length_nil]; omega)] at hj
            exact Option.noConfusion hj
      · by_cases hjlt : j < s.passes.length
        · rw [if_neg hklt] at hk
          rw [if_pos hjlt] at hj
          have hmem := hi.1 j t ⟨i2, r2, p2, hj⟩
          rcases hd : k - s.passes.length with _ | k2
          · rw [hd] at hk
            have hph : (syncRun s.dom s.rendering s.counter (snapshot s.dom)).phase
                = PassPhase.awaiting i1 r1 t p1 := by
              simpa using hk
            exact (syncRun_awaiting _ _ _ _ _ _ _ _ hph).1 hmem
          · rw [hd, List.getElem?_eq_none
              (by simp only [List.length_cons, List.length_nil]; omega)] at hk
            exact Option.noConfusion hk
        · rw [if_neg hklt] at hk
          rw [if_neg hjlt] at hj
          rcases hdk : k - s.passes.length with _ | k2
          · rcases hdj : j - s.passes.length with _ | j2
            · exact absurd (show k = j by omega) hkj
            · rw [hdj, List.getElem?_eq_none
                (by simp only [List.length_cons, List.length_nil]; omega)] at hj
              exact Option.noConfusion hj
          · rw [hdk, List.getElem?_eq_none
              (by simp only [List.length_cons, List.length_nil]; omega)] at hk
            exact Option.noConfusion hk
  | settle k i rid t pending outcome hk0 =>
    have hklen : k < s.passes.length := (List.getElem?_eq_some.mp hk0).1
    have hp2 : (settleCore s.dom s.rendering i t outcome).2 = s.rendering.erase t :=
      settleCore_rendering _ _ _ _ _
    constructor
    · rintro k' t' ⟨i', rid', p', hk'⟩
      by_cases hkk : k' = k
      · subst hkk
        rw [List.getElem?_set_self hklen] at hk'
        have hph : (syncRun (settleCore s.dom s.rendering i t outcome).1
              (settleCore s.dom s.rendering i t outcome).2 s.counter pending).phase
            = PassPhase.awaiting i' rid' t' p' := by
          simpa using hk'
        rw [(syncRun_awaiting _ _ _ _ _ _ _ _ hph).2]
        exact List.mem_cons_self _ _
      · rw [List.getElem?_set_ne (fun hh => hkk hh.symm)] at hk'
        have ht' := hi.1 k' t' ⟨i', rid', p', hk'⟩
        have htt : t' ≠ t := by
          intro hh
          subst hh
          exact hi.2 k' k t' hkk ⟨i', rid', p', hk'⟩ ⟨i, rid, pending, hk0⟩
        have hmem : t' ∈ (settleCore s.dom s.rendering i t outcome).2 := by
          rw [hp2]
          exact (List.mem_erase_of_ne htt).mpr ht'
        exact syncRun_superset _ _ _ _ t' hmem
    · rintro k1 k2 t' hk12 ⟨i1, r1, p1, h1⟩ ⟨i2, r2, p2', h2⟩
      by_cases hk1 : k1 = k
      · subst hk1
        rw [List.getElem?_set_self hklen] at h1
        have hph : (syncRun (settleCore s.dom s.rendering i t outcome).1
              (settleCore s.dom s.rendering i t outcome).2 s.counter pending).phase
            = PassPhase.awaiting i1 r1 t' p1 := by
          simpa using h1
        have hnot := (syncRun_awaiting _ _ _ _ _ _ _ _ hph).1
        rw [hp2] at hnot
        have hk2k : k2 ≠ k1 := fun hh => hk12 hh.symm
        rw [List.getElem?_set_ne (fun hh => hk2k hh.symm)] at h2
        have ht2 := hi.1 k2 t' ⟨i2, r2, p2', h2⟩
        have htt : t' ≠ t := by
          intro hh
          subst hh
          exact hi.2 k2 k1 t' hk2k ⟨i2, r2, p2', h2⟩ ⟨i, rid, pending, hk0⟩
        exact hnot ((List.mem_erase_of_ne htt).mpr ht2)
      · by_cases hk2 : k2 = k
        · subst hk2
          rw [List.getElem?_set_self hklen] at h2
          have hph : (syncRun (settleCore s.dom s.rendering i t outcome).1
                (settleCore s.dom s.rendering i t outcome).2 s.counter pending).phase
              = PassPhase.awaiting i2 r2 t' p2' := by
            simpa using h2
          have hnot := (syncRun_awaiting _ _ _ _ _ _ _ _ hph).1
          rw [hp2] at hnot
          rw [List.getElem?_set_ne (fun hh => hk1 hh.symm)] at h1
          have ht1 := hi.1 k1 t' ⟨i1, r1, p1, h1⟩
          have htt : t' ≠ t := by
            intro hh
            subst hh
            exact hi.2 k1 k2 t' hk12 ⟨i1, r1, p1, h1⟩ ⟨i, rid, pending, hk0⟩
          exact hnot ((List.mem_erase_of_ne htt).mpr ht1)
        · rw [List.getElem?_set_ne (fun hh => hk1 hh.symm)] at h1
          rw [List.getElem?_set_ne (fun hh => hk2 hh.symm)] at h2
          exact hi.2 k1 k2 t' hk12 ⟨i1, r1, p1, h1⟩ ⟨i2, r2, p2', h2⟩

theorem renderingInv_reachable (dom0 : Dom) (c0 : Nat) (s : GlobalState)
    (h : Reachable dom0 c0 s) : RenderingInv s := by
  induction h with
  | refl => exact renderingInv_init dom0 c0
  | tail hsteps hstep ih => exact renderingInv_step _ _ hstep ih

/-! ## Claim theorems -/

/-- C9: when the bound container is absent (`containerRef.current` is
null, e.g. after teardown), `processMermaidBlocks` returns at once: the
renderer is called zero times (empty event trace) and the component
state — container, Rendering Set and id counter — is unchanged. -/
theorem c9_absent_container_noop (render : RenderFn) (cs : CompState)
    (h : cs.container = none) :
    processMermaidBlocks render cs = (cs, []) := by
  unfold processMermaidBlocks
  rw [h]

theorem c9_witness :
    processMermaidBlocks okRender ⟨none, ["x"], 5⟩ = (⟨none, ["x"], 5⟩, []) :=
  c9_absent_container_noop okRender ⟨none, ["x"], 5⟩ rfl

/-- C7: the defaults are exactly `startOnLoad := false` (no auto render
on load), the named theme `"default"`, the relaxed `"loose"` security
level and the inherited font family; a first activation with no caller
configuration installs exactly these defaults; whenever a caller
supplies an explicit configuration the renderer is reconfigured with
the caller's values merged over the defaults, the caller winning key by
key; and the state is process-wide: an activation of any other
component instance sees the flag already set and, supplying no
configuration of its own, leaves the shared configuration untouched. -/
theorem c7_process_wide_configuration (g : MermaidGlobal)
    (c : PartialMermaidConfig) :
    defaultMermaidConfig = ⟨false, "default", "loose", "inherit"⟩
    ∧ (g.mermaidInitialized = false →
        activationEffect none g = ⟨true, some defaultMermaidConfig⟩)
    ∧ activationEffect (some c) g
        = ⟨true, some (mergeOver defaultMermaidConfig c)⟩
    ∧ (mergeOver defaultMermaidConfig c).startOnLoad = c.startOnLoad.getD false
    ∧ (mergeOver defaultMermaidConfig c).theme = c.theme.getD "default"
    ∧ (mergeOver defaultMermaidConfig c).securityLevel
        = c.securityLevel.getD "loose"
    ∧ (mergeOver defaultMermaidConfig c).fontFamily = c.fontFamily.getD "inherit"
    ∧ (g.mermaidInitialized = true → activationEffect none g = g) := by
  obtain ⟨b, inst⟩ := g
  cases b <;>
    refine ⟨rfl, ?_, rfl, rfl, rfl, rfl, rfl, ?_⟩ <;>
      intro h <;>
        first
          | rfl
          | exact absurd h (by simp)

theorem c7_witness :
    activationEffect none mermaidGlobalInit = ⟨true, some defaultMermaidConfig⟩
    ∧ activationEffect none ⟨true, some defaultMermaidConfig⟩
        = ⟨true, some defaultMermaidConfig⟩ :=
  ⟨(c7_process_wide_configuration mermaidGlobalInit {}).2.1 rfl,
   (c7_process_wide_configuration ⟨true, some defaultMermaidConfig⟩
      {}).2.2.2.2.2.2.2 rfl⟩

/-- C1 counterexample: on a container holding two source blocks with
identical raw text `"a"`, a single pass issues **two** render calls for
that text, not exactly one.  The loop awaits each render before the
next iteration, so by the time the second block is examined the first
render has settled and its `finally` has already removed `"a"` from the
Rendering Set — the skip never fires. -/
theorem c1_counterexample :
    ¬ startsOf "a" (processMermaidBlocks okRender ⟨some dupDom, [], 0⟩).2 = 1 := by
  decide

/-- C6 counterexample: one block whose render fails.  The failing pass
removes the processed attribute, so a second invocation with no
intervening DOM change issues a renderer call again (non-empty event
trace), contradicting "no renderer calls". -/
theorem c6_counterexample :
    ¬ (processMermaidBlocks failRender
        (processMermaidBlocks failRender ⟨some [blk 1 "a"], [], 0⟩).1).2 = [] := by
  decide

/-- C2 counterexample: two blocks with different texts `"a"` and `"b"`.
In the pass trace the render of the later block starts only after the
render of the earlier block has settled, refuting "the later render is
initiated before the earlier render settles". -/
theorem c2_counterexample :
    ¬ LaterStartsBeforeEarlierSettles
        (processMermaidBlocks okRender ⟨some seqDom, [], 0⟩).2 := by
  intro h
  have htr : (processMermaidBlocks okRender ⟨some seqDom, [], 0⟩).2
      = [.renderStart 1 "a", .renderEnd 1 "a",
         .renderStart 2 "b", .renderEnd 2 "b"] := by decide
  rw [htr] at h
  obtain ⟨k, hk, hke⟩ := h 0 2 1 "a" 2 "b" (by omega) rfl rfl (by decide)
  rcases k with _ | _ | _ | _ | k
  · omega
  · omega
  · omega
  · exact absurd hke (by decide)
  · rw [List.getElem?_eq_none (by simp)] at hke
    exact Option.noConfusion hke

/-- C1 amended: when a pass starts with an empty Rendering Set (no
overlapping pass in flight), it issues exactly one render call per
examined candidate — so two blocks with identical raw text both
render, one call each, and neither is skipped: the first render settles
and leaves the Rendering Set before the second block is examined.
Concretely, the duplicate container produces two initiation/settlement
pairs for the text `"a"`, with both blocks processed.  The
Rendering-Set skip only defers to a render started by an overlapping
pass. -/
theorem c1_amended_one_render_per_candidate (render : RenderFn) (dom : Dom)
    (ctr : Nat) (ids : List Nat) (hnd : ids.Nodup) :
    (runPass render ⟨dom, [], ctr, []⟩ ids).events.countP Event.isStart
      = ids.countP (fun j => isTextCandidate dom j)
    ∧ (processMermaidBlocks okRender ⟨some dupDom, [], 0⟩).2
        = [.renderStart 1 "a", .renderEnd 1 "a",
           .renderStart 2 "a", .renderEnd 2 "a"] := by
  constructor
  · have h := starts_runPass_empty render ⟨dom, [], ctr, []⟩ ids hnd rfl
    simpa using h
  · decide

theorem c1_witness :
    (runPass okRender ⟨dupDom, [], 0, []⟩ [1, 2]).events.countP Event.isStart
      = ([1, 2] : List Nat).countP (fun j => isTextCandidate dupDom j) :=
  (c1_amended_one_render_per_candidate okRender dupDom 0 [1, 2] (by decide)).1

/-- C2 amended: within one pass, renders are initiated in document
order but strictly sequentially: every initiation is immediately
followed in the trace by its own settlement (so the later of two
renders is initiated only after the earlier settles, and no two renders
of one pass are in flight at once), and initiations carry strictly increasing
identifiers, reflecting document order of examination. -/
theorem c2_amended_sequential_pass (render : RenderFn) (dom : Dom)
    (rendering : List String) (ctr : Nat) (ids : List Nat) :
    SequentialTrace (runPass render ⟨dom, rendering, ctr, []⟩ ids).events
    ∧ StartsOrdered (runPass render ⟨dom, rendering, ctr, []⟩ ids).events := by
  have h := trace_runPass render ⟨dom, rendering, ctr, []⟩ ids
    (eventsBounded_nil ctr) sequentialTrace_nil startsOrdered_nil
  exact ⟨h.2.1, h.2.2⟩

theorem c2_witness :
    SequentialTrace (runPass okRender ⟨seqDom, [], 0, []⟩ [1, 2]).events
    ∧ StartsOrdered (runPass okRender ⟨seqDom, [], 0, []⟩ [1, 2]).events :=
  c2_amended_sequential_pass okRender seqDom [] 0 [1, 2]

/-- C6 amended: when every render succeeds and no pass overlaps (empty
Rendering Set at the start), two successive invocations with no
intervening DOM change are idempotent: the second invocation issues no
renderer calls and changes nothing.  (The original claim fails when a
render of the first pass rejects: that block is unmarked and retried —
see the counterexample.) -/
theorem c6_amended_idempotent_on_success (render : RenderFn)
    (hok : ∀ id t, ∃ svg, render id t = .ok svg)
    (dom : Dom) (hnd : (snapshot dom).Nodup) (ctr : Nat) :
    processMermaidBlocks render (processMermaidBlocks render ⟨some dom, [], ctr⟩).1
      = ((processMermaidBlocks render ⟨some dom, [], ctr⟩).1, []) := by
  have h1 : (processMermaidBlocks render ⟨some dom, [], ctr⟩).1
      = ⟨some (runPass render ⟨dom, [], ctr, []⟩ (snapshot dom)).dom,
         (runPass render ⟨dom, [], ctr, []⟩ (snapshot dom)).rendering,
         (runPass render ⟨dom, [], ctr, []⟩ (snapshot dom)).counter⟩ := rfl
  set st1 := runPass render ⟨dom, [], ctr, []⟩ (snapshot dom) with hst1
  have hre : st1.rendering = [] := by
    rw [hst1, rendering_runPass]
  have hsnap : snapshot st1.dom = snapshot dom := by
    rw [hst1, snapshot_runPass]
  have hclear : ∀ j ∈ snapshot dom, isTextCandidate st1.dom j = false := by
    intro j hj
    exact runPass_clears render hok (snapshot dom) ⟨dom, [], ctr, []⟩ hnd rfl j
      (Or.inr hj)
  have hnoop : runPass render ⟨st1.dom, st1.rendering, st1.counter, []⟩
        (snapshot st1.dom)
      = ⟨st1.dom, st1.rendering, st1.counter, []⟩ := by
    apply runPass_noncand_all
    intro i hi
    rw [hsnap] at hi
    exact hclear i hi
  rw [h1]
  show ((⟨some (runPass render ⟨st1.dom, st1.rendering, st1.counter, []⟩
            (snapshot st1.dom)).dom,
         (runPass render ⟨st1.dom, st1.rendering, st1.counter, []⟩
            (snapshot st1.dom)).rendering,
         (runPass render ⟨st1.dom, st1.rendering, st1.counter, []⟩
            (snapshot st1.dom)).counter⟩ : CompState),
        (runPass render ⟨st1.dom, st1.rendering, st1.counter, []⟩
            (snapshot st1.dom)).events)
      = ((⟨some st1.dom, st1.rendering, st1.counter⟩ : CompState), ([] : List Event))
  rw [hnoop]

theorem c6_witness :
    processMermaidBlocks okRender
        (processMermaidBlocks okRender ⟨some [blk 1 "a"], [], 0⟩).1
      = ((processMermaidBlocks okRender ⟨some [blk 1 "a"], [], 0⟩).1, []) :=
  c6_amended_idempotent_on_success okRender (fun _ t => ⟨"svg:" ++ t, rfl⟩)
    [blk 1 "a"] (by decide) 0

/-- C10: the id counter advances by one for every examined block that
passes the non-empty-text check, whatever the Rendering Set holds — so
set-skipped blocks consume an identifier too; identifiers of initiated
renders are strictly increasing along the trace; on a container
`a`, `b`, `c` with `"b"` already in flight elsewhere, the rendered
identifiers are 1 and 3 (2 was consumed by the skipped block, so
rendered identifiers are not consecutive); and a block retried after a
failure receives the fresh identifier 2, not its original 1. -/
theorem c10_identifier_generation (render : RenderFn) (dom : Dom)
    (rendering : List String) (ctr : Nat) (ids : List Nat) (hnd : ids.Nodup) :
    (runPass render ⟨dom, rendering, ctr, []⟩ ids).counter
      = ctr + ids.countP (fun j => isTextCandidate dom j)
    ∧ StartsOrdered (runPass render ⟨dom, rendering, ctr, []⟩ ids).events
    ∧ (runPass okRender ⟨[blk 1 "a", blk 2 "b", blk 3 "c"], ["b"], 0, []⟩
          [1, 2, 3]).events
        = [.renderStart 1 "a", .renderEnd 1 "a",
           .renderStart 3 "c", .renderEnd 3 "c"]
    ∧ (processMermaidBlocks failRender
          (processMermaidBlocks failRender ⟨some [blk 1 "a"], [], 0⟩).1).2
        = [.renderStart 2 "a", .renderEnd 2 "a"] := by
  refine ⟨?_, ?_, by decide, by decide⟩
  · have h := counter_runPass render ⟨dom, rendering, ctr, []⟩ ids hnd
    simpa using h
  · exact (trace_runPass render ⟨dom, rendering, ctr, []⟩ ids
      (eventsBounded_nil ctr) sequentialTrace_nil startsOrdered_nil).2.2

/-- C4: a failing render is caught, never re-raised (the iteration is a
total function and the loop equation continues with the remaining
blocks); exactly one `mermaid-error` panel is inserted immediately
after the preformatted container, its text the fixed prefix plus the
failure's message (or the generic fallback when none is available); the
block comes out exactly as it went in — the `<pre>` does not gain the
hidden class, the source stays in the DOM, and the processed attribute
is absent again, so a later scan re-attempts it. -/
theorem c4_render_failure (render : RenderFn) (st : ScanState) (i : Nat)
    (b : SourceBlock) (domL domR : Dom)
    (hdom : st.dom = domL ++ .src b :: domR)
    (hL : ∀ n ∈ domL, n.isSrcId i = false)
    (hR : ∀ n ∈ domR, n.isSrcId i = false)
    (hb : b.sid = i) (hp : b.processed = false) (hpre : b.parentIsPre = true)
    (ht : jsTrim b.text ≠ "") (hmem : jsTrim b.text ∉ st.rendering)
    (e : Option String)
    (hr : render (st.counter + 1) (jsTrim b.text) = .error e) :
    (processBlock render st i).dom
        = domL ++ .src b
            :: .errOut ("Mermaid Error: " ++ e.getD "Failed to render diagram")
            :: domR
    ∧ (processBlock render st i).rendering = st.rendering
    ∧ (∀ rest, runPass render st (i :: rest)
          = runPass render (processBlock render st i) rest) := by
  obtain ⟨h1, h2, _, _⟩ := processBlock_err_positional render st i b domL domR
    hdom hL hR hb hp hpre ht hmem e hr
  exact ⟨h1, h2, fun rest => rfl⟩

theorem c4_witness :
    (processBlock failRender ⟨[blk 1 "bad"], [], 0, []⟩ 1).dom
        = [] ++ .src ⟨1, "bad", false, true, false⟩
            :: .errOut ("Mermaid Error: " ++
                (some "bad syntax").getD "Failed to render diagram")
            :: []
    ∧ (processBlock failRender ⟨[blk 1 "bad"], [], 0, []⟩ 1).rendering
        = ([] : List String) :=
  have h := c4_render_failure failRender ⟨[blk 1 "bad"], [], 0, []⟩ 1
    ⟨1, "bad", false, true, false⟩ [] [] rfl
    (fun n hn => absurd hn (List.not_mem_nil n))
    (fun n hn => absurd hn (List.not_mem_nil n))
    rfl rfl rfl (by decide) (List.not_mem_nil _) (some "bad syntax") rfl
  ⟨h.1, h.2.1⟩

/-- C5: a successful render inserts exactly one `mermaid-container`
holding the rendered markup as the immediate next sibling of the
preformatted container; the `<pre>` gains the `mermaid-hidden` class;
and the original source node — text intact — remains in the DOM. -/
theorem c5_render_success (render : RenderFn) (st : ScanState) (i : Nat)
    (b : SourceBlock) (domL domR : Dom)
    (hdom : st.dom = domL ++ .src b :: domR)
    (hL : ∀ n ∈ domL, n.isSrcId i = false)
    (hR : ∀ n ∈ domR, n.isSrcId i = false)
    (hb : b.sid = i) (hp : b.processed = false) (hpre : b.parentIsPre = true)
    (ht : jsTrim b.text ≠ "") (hmem : jsTrim b.text ∉ st.rendering)
    (svg : String)
    (hr : render (st.counter + 1) (jsTrim b.text) = .ok svg) :
    (processBlock render st i).dom
        = domL ++ .src { b with processed := true, hidden := true }
            :: .diagramOut svg :: domR
    ∧ (processBlock render st i).rendering = st.rendering := by
  obtain ⟨h1, h2, _, _⟩ := processBlock_ok_positional render st i b domL domR
    hdom hL hR hb hp hpre ht hmem svg hr
  exact ⟨h1, h2⟩

theorem c5_witness :
    (processBlock okRender ⟨[blk 1 "a"], [], 0, []⟩ 1).dom
        = [] ++ .src ⟨1, "a", true, true, true⟩ :: .diagramOut "svg:a" :: []
    ∧ (processBlock okRender ⟨[blk 1 "a"], [], 0, []⟩ 1).rendering
        = ([] : List String) :=
  c5_render_success okRender ⟨[blk 1 "a"], [], 0, []⟩ 1
    ⟨1, "a", false, true, false⟩ [] [] rfl
    (fun n hn => absurd hn (List.not_mem_nil n))
    (fun n hn => absurd hn (List.not_mem_nil n))
    rfl rfl rfl (by decide) (List.not_mem_nil _) "svg:a" rfl

/-! ## Repeated failing scans -/

theorem snapshot_replicate_err (k : Nat) (m : String) :
    snapshot (List.replicate k (.errOut m)) = [] := by
  induction k with
  | zero => rfl
  | succ k ih => rw [List.replicate_succ, snapshot_cons_err, ih]

/-- One failing pass over a block followed by `k` stale error panels
adds one more panel directly after the `<pre>` and advances the
counter. -/
theorem onePassFail (e : Option String) (b : SourceBlock)
    (hp : b.processed = false) (hpre : b.parentIsPre = true)
    (ht : jsTrim b.text ≠ "") (c k : Nat) :
    (processMermaidBlocks (fun _ _ => .error e)
        ⟨some (.src b :: List.replicate k (.errOut (errorText e))), [], c⟩).1
      = ⟨some (.src b :: List.replicate (k + 1) (.errOut (errorText e))),
         [], c + 1⟩ := by
  have hsnap : snapshot (.src b :: List.replicate k (.errOut (errorText e)))
      = [b.sid] := by
    rw [snapshot_cons_src, snapshot_replicate_err]
  have hres := processBlock_err_positional (fun _ _ => .error e)
    ⟨.src b :: List.replicate k (.errOut (errorText e)), [], c, []⟩ b.sid b
    [] (List.replicate k (.errOut (errorText e))) rfl
    (fun n hn => absurd hn (List.not_mem_nil n))
    (fun n hn => by
      rw [List.eq_of_mem_replicate hn]
      rfl)
    rfl hp hpre ht (List.not_mem_nil _) e rfl
  have hpass : runPass (fun _ _ => .error e)
      ⟨.src b :: List.replicate k (.errOut (errorText e)), [], c, []⟩
      (snapshot (.src b :: List.replicate k (.errOut (errorText e))))
      = processBlock (fun _ _ => .error e)
          ⟨.src b :: List.replicate k (.errOut (errorText e)), [], c, []⟩ b.sid := by
    rw [hsnap, runPass_cons, runPass_nil]
  have hcomp : (processMermaidBlocks (fun _ _ => .error e)
      ⟨some (.src b :: List.replicate k (.errOut (errorText e))), [], c⟩).1
      = ⟨some (processBlock (fun _ _ => .error e)
            ⟨.src b :: List.replicate k (.errOut (errorText e)), [], c, []⟩ b.sid).dom,
         (processBlock (fun _ _ => .error e)
            ⟨.src b :: List.replicate k (.errOut (errorText e)), [], c, []⟩ b.sid).rendering,
         (processBlock (fun _ _ => .error e)
            ⟨.src b :: List.replicate k (.errOut (errorText e)), [], c, []⟩ b.sid).counter⟩ := by
    show (⟨some (runPass (fun _ _ => .error e)
            ⟨.src b :: List.replicate k (.errOut (errorText e)), [], c, []⟩
            (snapshot (.src b :: List.replicate k (.errOut (errorText e))))).dom,
          (runPass (fun _ _ => .error e)
            ⟨.src b :: List.replicate k (.errOut (errorText e)), [], c, []⟩
            (snapshot (.src b :: List.replicate k (.errOut (errorText e))))).rendering,
          (runPass (fun _ _ => .error e)
            ⟨.src b :: List.replicate k (.errOut (errorText e)), [], c, []⟩
            (snapshot (.src b :: List.replicate k (.errOut (errorText e))))).counter⟩
        : CompState) = _
    rw [hpass]
  rw [hcomp, hres.1, hres.2.1, hres.2.2.1]
  rw [List.nil_append, ← List.replicate_succ]

/-- `n` failing passes stack `n` fresh panels in front of `k` stale
ones. -/
theorem iterScanFail (e : Option String) (b : SourceBlock)
    (hp : b.processed = false) (hpre : b.parentIsPre = true)
    (ht : jsTrim b.text ≠ "") :
    ∀ (n k c : Nat),
      iterScan (fun _ _ => .error e) n
          ⟨some (.src b :: List.replicate k (.errOut (errorText e))), [], c⟩
        = ⟨some (.src b :: List.replicate (n + k) (.errOut (errorText e))),
           [], c + n⟩ := by
  intro n
  induction n with
  | zero =>
    intro k c
    simp [iterScan]
  | succ n ih =>
    intro k c
    show iterScan (fun _ _ => .error e) n
        (processMermaidBlocks (fun _ _ => .error e)
          ⟨some (.src b :: List.replicate k (.errOut (errorText e))), [], c⟩).1
      = _
    rw [onePassFail e b hp hpre ht c k, ih (k + 1) (c + 1)]
    have h1 : n + (k + 1) = n + 1 + k := by omega
    have h2 : c + 1 + n = c + (n + 1) := by omega
    rw [h1, h2]

/-- C8: error panels accumulate.  With a renderer that always rejects,
`n` successive scans over a single source block leave the block
unprocessed and the container holding the source block followed by `n`
`mermaid-error` panels — none is ever removed. -/
theorem c8_error_panels_accumulate (e : Option String) (b : SourceBlock)
    (hp : b.processed = false) (hpre : b.parentIsPre = true)
    (ht : jsTrim b.text ≠ "") (c0 n : Nat) :
    iterScan (fun _ _ => .error e) n ⟨some [.src b], [], c0⟩
      = ⟨some (.src b :: List.replicate n (.errOut (errorText e))),
         [], c0 + n⟩ := by
  have h := iterScanFail e b hp hpre ht n 0 c0
  simpa using h

theorem c8_witness :
    iterScan (fun _ _ => .error (some "bad syntax")) 2 ⟨some [blk 1 "a"], [], 0⟩
      = ⟨some (.src ⟨1, "a", false, true, false⟩
            :: List.replicate 2 (.errOut (errorText (some "bad syntax")))),
         [], 0 + 2⟩ :=
  c8_error_panels_accumulate (some "bad syntax") ⟨1, "a", false, true, false⟩
    rfl rfl (by decide) 0 2

/-- C3: over every interleaving of scan-and-render passes — any
sequence of pass invocations and render settlements with arbitrary
outcomes — every in-flight text is in the Rendering Set and no two
distinct passes are awaiting the same text, so at most one render per
distinct raw-text value is in flight at any time; the text is in the
Rendering Set from the moment its render is initiated; and settlement
removes it unconditionally, on success and on failure alike. -/
theorem c3_rendering_set_invariant :
    (∀ (dom0 : Dom) (c0 : Nat) (s : GlobalState),
        Reachable dom0 c0 s → RenderingInv s)
    ∧ (∀ (dom : Dom) (r : List String) (i : Nat) (t : String)
          (outcome : Except (Option String) String),
        (settleCore dom r i t outcome).2 = r.erase t)
    ∧ (∀ (dom : Dom) (r : List String) (c : Nat) (pend : List Nat)
          (i rid : Nat) (t : String) (p : List Nat),
        (syncRun dom r c pend).phase = PassPhase.awaiting i rid t p →
          t ∈ (syncRun dom r c pend).rendering) :=
  ⟨renderingInv_reachable,
   fun dom r i t o => settleCore_rendering dom r i t o,
   fun dom r c pend i rid t p h => by
     rw [(syncRun_awaiting dom r c pend i rid t p h).2]
     exact List.mem_cons_self _ _⟩

theorem c3_witness :
    RenderingInv ⟨[blk 1 "a"], [], 0, []⟩
    ∧ (settleCore [blk 1 "a"] ["a"] 1 "a" (.ok "svg")).2
        = (["a"] : List String).erase "a"
    ∧ "a" ∈ (syncRun [blk 1 "a"] [] 0 [1]).rendering :=
  ⟨c3_rendering_set_invariant.1 [blk 1 "a"] 0 _ Relation.ReflTransGen.refl,
   c3_rendering_set_invariant.2.1 [blk 1 "a"] ["a"] 1 "a" (.ok "svg"),
   c3_rendering_set_invariant.2.2 [blk 1 "a"] [] 0 [1] 1 1 "a" [] (by decide)⟩

theorem c10_witness :
    (runPass okRender ⟨[blk 1 "a", blk 2 "b", blk 3 "c"], ["b"], 0, []⟩
        [1, 2, 3]).counter
      = 0 + ([1, 2, 3] : List Nat).countP
          (fun j => isTextCandidate [blk 1 "a", blk 2 "b", blk 3 "c"] j) :=
  (c10_identifier_generation okRender [blk 1 "a", blk 2 "b", blk 3 "c"]
    ["b"] 0 [1, 2, 3] (by decide)).1

end RedocMermaid
